import Mathlib

/-!
Verification of the nebula-contracts basket core: the sign-magnitude
fixed-point decimal type `FPDecimal` (src/libraries/basket-math/src/fp_decimal/
arithmetic.rs) and the mint/burn pricing pipeline of the basket contract
(src/contracts/basket-contract/src/contract/handle.rs).

Magnitudes live in the 256-bit unsigned integer type `U256` of the `bigint`
crate, whose add/sub/mul panic on overflow rather than wrap.  We model a
magnitude as a `Nat` and every arithmetic step that can panic as an
`Option Nat` (`none` = panic/abort).  The sign field is an `i8` in the source
(1 = non-negative, 0 = negative); we model it as `Int`.
-/

/-- The U256 overflow bound: `bigint::U256` arithmetic panics at `2^256`. -/
def U256BOUND : Nat := 2 ^ 256

/-- Checked U256 addition: `a + b` panics (`none`) on overflow. -/
def cadd (a b : Nat) : Option Nat :=
  if a + b < U256BOUND then some (a + b) else none

/-- Checked U256 multiplication: `a * b` panics (`none`) on overflow. -/
def cmul (a b : Nat) : Option Nat :=
  if a * b < U256BOUND then some (a * b) else none

/-- The FPDecimal type of basket-math: an unsigned 256-bit magnitude `num`
(scaled by `ONE`) and an `i8` sign, `1` = non-negative, `0` = negative. -/
structure FPDecimal where
  num : Nat
  sign : Int
  deriving DecidableEq, Repr

namespace FPDecimal

/-- Modelled from the spec: `SCALE`, "the value of one" (§3).  The constant
`FPDecimal::ONE` lives in the fp_decimal module root, which is not under
src/; the repository fixes the decimal scale at 10^18. -/
def ONE : FPDecimal := ⟨10 ^ 18, 1⟩

/-- Modelled from the spec: the secondary multiply-precision divisor (§4.1),
"chosen so the cross product cannot overflow"; the repository uses
`sqrt SCALE = 10^9`.  Defined in the fp_decimal module root (not under src/). -/
def MUL_PRECISION : FPDecimal := ⟨10 ^ 9, 1⟩

/-- Modelled from the spec: the canonical zero (§3), magnitude 0 with the
non-negative sign.  `FPDecimal::zero()` is defined outside src/. -/
def zero : FPDecimal := ⟨0, 1⟩

/-- Modelled from the spec: `FPDecimal::one()` returns the canonical one
value; defined outside src/. -/
def one : FPDecimal := ONE

/-- Modelled from the spec: conversion of a raw non-negative integer into a
FixedPoint at the boundary (§6): scale by `ONE`, non-negative sign.
`FPDecimal::from` is defined outside src/. -/
def fromNat (n : Nat) : FPDecimal := ⟨n * ONE.num, 1⟩

/-- Modelled from the spec: the integer part of a FixedPoint (§4.1), i.e. the
magnitude rounded down to a multiple of `SCALE`.  `FPDecimal::_int` is
defined outside src/. -/
def _int (x : FPDecimal) : FPDecimal := ⟨x.num / ONE.num * ONE.num, x.sign⟩

/-- Modelled from the spec: the fractional part of a FixedPoint, "magnitude
modulo SCALE" (§4.1).  `FPDecimal::_fraction` is defined outside src/. -/
def _fraction (x : FPDecimal) : FPDecimal := ⟨x.num % ONE.num, x.sign⟩

/-- `FPDecimal::_add` (arithmetic.rs lines 6-28).  Same signs: magnitudes
add (checked, U256 overflow panics).  Different signs: the larger magnitude
wins and keeps the sign of that operand; equal magnitudes give sign 1 (zero). -/
def _add (x y : FPDecimal) : Option FPDecimal :=
  if x.sign = y.sign then
    (cadd x.num y.num).map (fun n => ⟨n, x.sign⟩)
  else if y.num < x.num then
    some ⟨x.num - y.num, x.sign⟩
  else
    some ⟨y.num - x.num, if y.num = x.num then 1 else y.sign⟩

/-- `FPDecimal::_sub` (arithmetic.rs lines 30-33): add the sign-flipped `y`. -/
def _sub (x y : FPDecimal) : Option FPDecimal :=
  _add x ⟨y.num, 1 - y.sign⟩

/-- `FPDecimal::_mul` (arithmetic.rs lines 35-60): split each operand into an
integer part and a fractional part, sum the four cross terms; the
fraction-fraction term is computed at reduced precision after dividing both
fractional parts by `MUL_PRECISION`.  Every U256 add/mul is checked. -/
def _mul (x y : FPDecimal) : Option FPDecimal := do
  let sign : Int := if x.sign ≠ y.sign then 0 else 1
  let x1 : Nat := (_int x).num / ONE.num
  let x2 : Nat := (_fraction x).num
  let y1 : Nat := (_int y).num / ONE.num
  let y2 : Nat := (_fraction y).num
  let x1y1 ← cmul x1 y1
  let dec_x1y1 ← cmul x1y1 ONE.num
  let x2y1 ← cmul x2 y1
  let x1y2 ← cmul x1 y2
  let x2s : Nat := x2 / MUL_PRECISION.num
  let y2s : Nat := y2 / MUL_PRECISION.num
  let x2y2 ← cmul x2s y2s
  let r1 ← cadd dec_x1y1 x2y1
  let r2 ← cadd r1 x1y2
  let r3 ← cadd r2 x2y2
  pure ⟨r3, sign⟩

/-- `FPDecimal::reciprocal` (arithmetic.rs lines 69-75): `ONE² / x.num`
with the sign of `x`; a failed assert on a zero magnitude is a panic (`none`). -/
def reciprocal (x : FPDecimal) : Option FPDecimal :=
  if x.num = 0 then none
  else some ⟨ONE.num * ONE.num / x.num, x.sign⟩

/-- `FPDecimal::_div` (arithmetic.rs lines 61-67): fast path returns `x`
unchanged when `y` equals `ONE`; `assert!(y.num != 0)` failure is a panic;
otherwise multiply by the reciprocal. -/
def _div (x y : FPDecimal) : Option FPDecimal :=
  if y = ONE then some x
  else if y.num = 0 then none
  else (reciprocal y).bind (fun r => _mul x r)

/-- `FPDecimal::abs` (arithmetic.rs lines 77-79). -/
def abs (x : FPDecimal) : FPDecimal := ⟨x.num, 1⟩

/-- `FPDecimal::convertTou128` (arithmetic.rs lines 81-88): assemble the 16
least-significant little-endian bytes of a U256 into a u128.  `num.byte(i)`
is byte `i`, i.e. `num / 2^(8*i) % 256`.  `leBytesAcc n k` is the value of
the first `k` little-endian bytes of `n`. -/
def leBytesAcc (n : Nat) : Nat → Nat
  | 0 => 0
  | k + 1 => leBytesAcc n k + n / 2 ^ (8 * k) % 2 ^ 8 * 2 ^ (8 * k)

/-- `FPDecimal::convertTou128`: read bytes 0..16 of `num` little-endian. -/
def convertTou128 (num : Nat) : Nat := leBytesAcc num 16

/-- The canonical-zero invariant (spec §3): a zero magnitude always carries
the non-negative sign. -/
def canonicalZero (x : FPDecimal) : Prop := x.num = 0 → x.sign = 1

instance (x : FPDecimal) : Decidable (canonicalZero x) := by
  unfold canonicalZero; infer_instance

end FPDecimal

/-!
The basket contract pipeline (src/contracts/basket-contract/src/contract/
handle.rs).  The vector helpers `dot`/`sum` (basket-math vector module) and
the boundary conversions `int_to_fpdec`/`fpdec_to_int` (basket-contract
util module) are not under src/ and are modelled from the spec.  Cross-
contract message construction, authorization and storage are external
collaborators (spec §1/§6) and are abstracted: inventory balances, prices,
the token supply and the staged balances are explicit inputs, and the score/
penalty computation (penalty module, not under src/) is an explicit function
parameter whose possible panic is an `Option` result.
-/

/-- Modelled from the spec: `sum(u)`, left-to-right accumulation via `add`
(§4.2); `sum` lives in the basket-math vector module, not under src/. -/
def sumFP (u : List FPDecimal) : Option FPDecimal :=
  u.foldlM FPDecimal._add FPDecimal.zero

/-- Modelled from the spec: `dot(u, v)`, the sum of element-wise products
(§4.2); the source iterates zipped sequences, so a length mismatch silently
truncates to the shorter vector.  `dot` lives in the basket-math vector
module, not under src/. -/
def dotFP (u v : List FPDecimal) : Option FPDecimal := do
  let prods ← (u.zip v).mapM (fun p => FPDecimal._mul p.1 p.2)
  sumFP prods

/-- Modelled from the spec: boundary conversion of an integer amount in the
smallest denomination into a FixedPoint (§6): scale by `SCALE`, sign
non-negative.  `int_to_fpdec` lives in the basket-contract util module, not
under src/. -/
def int_to_fpdec (n : Nat) : FPDecimal := ⟨n * FPDecimal.ONE.num, 1⟩

/-- Modelled from the spec: conversion of a fixed-point subtotal to an
integer amount, flooring toward zero, returning the integer and the
discarded fractional remainder (§4.5); `fpdec_to_int` lives in the
basket-contract util module, not under src/. -/
def fpdec_to_int (x : FPDecimal) : Nat × FPDecimal :=
  (x.num / FPDecimal.ONE.num, ⟨x.num % FPDecimal.ONE.num, x.sign⟩)

/-- The error outcomes of a handle call.  `panic` is the fatal tier (spec
§7): a failed `assert!` or a U256 overflow aborts the whole call.  The other
constructors are the recoverable `StdError` returns built by the error
module of the basket contract. -/
inductive ContractError where
  | panic : ContractError
  | badWeightDimensions (provided expected : Nat) : ContractError
  | belowMinTokens (minted min_tokens : Nat) : ContractError
  | insufficientStaged (requested available : Nat) : ContractError
  deriving DecidableEq, Repr

/-- Lift a panicking computation into a handle result: `none` aborts the
call fatally. -/
def fatal {α : Type} : Option α → Except ContractError α
  | none => .error .panic
  | some a => .ok a

/-- The per-asset redemption pipeline of the unweighted burn branch
(handle.rs line 146): `redeem_subtotals = inv.map (m_div_n * ·)`, then each
subtotal is truncated by `fpdec_to_int` (lines 150-151). -/
def redeemUnweighted (mDivN : FPDecimal) (inv : List FPDecimal) :
    Option (List Nat) := do
  let subtotals ← inv.mapM (fun x => FPDecimal._mul mDivN x)
  pure (subtotals.map (fun x => (fpdec_to_int x).1))

/-- The signature of the score-and-penalty step of the weighted burn branch
(handle.rs lines 131-144): given inventory, the negated redemption vector,
prices and the target it produces the penalty factor; the closed form lives
in the penalty module (not under src/, left open by the spec §9), so it is
a parameter; `none` is a panic inside the computation. -/
def PenaltyFn : Type :=
  List FPDecimal → List FPDecimal → List FPDecimal → List Nat →
    Option FPDecimal

/-- `try_receive_burn` (handle.rs lines 66-193), from the point where the
authorization and message-construction collaborators (out of scope, spec §1)
have succeeded.  Inputs: the burn amount `B` (the sent basket tokens), the
queried inventory balances, the queried token supply `S`, the optional
weight vector, the queried prices, the stored target, and the penalty
computation.  Output: the per-asset integer redemption amounts. -/
def tryReceiveBurn (B : Nat) (balances : List Nat) (S : Nat)
    (asset_weights : Option (List Nat)) (prices : List FPDecimal)
    (target : List Nat) (penaltyOf : PenaltyFn) :
    Except ContractError (List Nat) := do
  let inv : List FPDecimal := balances.map int_to_fpdec
  let m_div_n ← fatal (FPDecimal._div (int_to_fpdec B) (int_to_fpdec S))
  match asset_weights with
  | some weights => do
      if weights.length ≠ inv.length then
        throw (.badWeightDimensions weights.length inv.length)
      let weights_sum ← fatal
        (weights.foldlM
          (fun acc el => FPDecimal._add acc (FPDecimal.fromNat el))
          FPDecimal.zero)
      let r ← fatal
        (weights.mapM (fun x => FPDecimal._div (FPDecimal.fromNat x) weights_sum))
      let invPrices ← fatal (dotFP inv prices)
      let rPrices ← fatal (dotFP r prices)
      let prod ← fatal (FPDecimal._div invPrices rPrices)
      let b ← fatal
        (r.mapM (fun x => (FPDecimal._mul m_div_n prod).bind
          (fun mp => FPDecimal._mul mp x)))
      let penalty ← fatal (penaltyOf inv b prices target)
      let subtotals ← fatal (b.mapM (fun x => FPDecimal._mul penalty x))
      pure (subtotals.map (fun x => (fpdec_to_int x).1))
  | none => do
      let totals ← fatal (redeemUnweighted m_div_n inv)
      pure totals

/-- The staging loop of `try_mint` (handle.rs lines 307-319): iterate over
`cfg.assets.zip(asset_amounts)` (which stops at the shorter list), reject
when a requested amount exceeds the staged balance, otherwise unstage it.
The state is the staged balance of the caller per asset index. -/
def unstageLoop : List Nat → List Nat → Except ContractError (List Nat)
  | staged, [] => .ok staged
  | [], _ => .ok []
  | s :: staged, a :: amounts =>
      if s < a then .error (.insufficientStaged a s)
      else (unstageLoop staged amounts).map (fun rest => (s - a) :: rest)

/-- The mint subtotal expression of `try_mint` (handle.rs lines 350-351),
exactly as the source groups it:
`penalty * dot(c, prices) / dot(inv, prices) * int_to_fpdec(supply)`,
i.e. `((penalty * cv) / iv) * supply` evaluated left to right. -/
def mintSubtotal (penalty : FPDecimal) (c prices inv : List FPDecimal)
    (S : Nat) : Option FPDecimal := do
  let cv ← dotFP c prices
  let iv ← dotFP inv prices
  let pcv ← FPDecimal._mul penalty cv
  let q ← FPDecimal._div pcv iv
  FPDecimal._mul q (int_to_fpdec S)

/-- The exact words of the spec for the raw mint amount (§4.5): "penalty *
(contribution_value / inventory_value) * supply", with the division grouped
inside.  Stated only to be compared with `mintSubtotal`. -/
def mintSubtotalSpec (penalty : FPDecimal) (c prices inv : List FPDecimal)
    (S : Nat) : Option FPDecimal := do
  let cv ← dotFP c prices
  let iv ← dotFP inv prices
  let ratio ← FPDecimal._div cv iv
  let pr ← FPDecimal._mul penalty ratio
  FPDecimal._mul pr (int_to_fpdec S)

/-- `try_mint` (handle.rs lines 293-383), from the point where config/target
reads succeeded.  Inputs: the staged balances of the caller (one per configured
asset), the requested `asset_amounts`, the queried balances, prices, target,
the queried token supply, the optional `min_tokens`, and the score/penalty
computation (penalty module, not under src/).  Output: the staged
balances after the call and the minted token amount with its roundoff. -/
def tryMint (staged : List Nat) (asset_amounts : List Nat)
    (balances : List Nat) (prices : List FPDecimal) (target : List Nat)
    (S : Nat) (min_tokens : Option Nat) (penaltyOf : PenaltyFn) :
    Except ContractError (List Nat × Nat × FPDecimal) := do
  let staged2 ← unstageLoop staged asset_amounts
  let c : List FPDecimal := asset_amounts.map int_to_fpdec
  let inv : List FPDecimal := balances.map int_to_fpdec
  let penalty ← fatal (penaltyOf inv c prices target)
  let mint_subtotal ← fatal (mintSubtotal penalty c prices inv S)
  let mint_total := (fpdec_to_int mint_subtotal).1
  let mint_roundoff := (fpdec_to_int mint_subtotal).2
  match min_tokens with
  | some min =>
      if mint_total < min then
        throw (.belowMinTokens mint_total min)
      else pure (staged2, mint_total, mint_roundoff)
  | none => pure (staged2, mint_total, mint_roundoff)

/-- `try_reset_target` (handle.rs lines 227-259), from the point where the
config read and the owner check succeeded: reject a target vector whose
length differs from the configured asset list, otherwise store it.  The
output is the stored target. -/
def tryResetTarget (assetsLen : Nat) (target : List Nat) :
    Except ContractError (List Nat) :=
  if target.length ≠ assetsLen then
    .error (.badWeightDimensions target.length assetsLen)
  else .ok target

/-- Modelled from the spec: the surrounding system commits storage effects
only when the call succeeds; a rejected operation leaves no partial effects
(§7).  The persistence layer is an excluded collaborator (§1). -/
def commitStaged (staged : List Nat)
    (r : Except ContractError (List Nat × Nat × FPDecimal)) : List Nat :=
  match r with
  | .ok (staged2, _, _) => staged2
  | .error _ => staged

/-- A concrete penalty computation for closed runs: the neutral factor 1
(the value of the penalty curve at score 0, spec §4.4). -/
def constPenaltyOne : PenaltyFn := fun _ _ _ _ => some FPDecimal.one

/-- A concrete penalty computation returning 1 + 5e-10, a value within the
contract of the penalty curve near a neutral score. -/
def constPenaltyNearOne : PenaltyFn :=
  fun _ _ _ _ => some ⟨10 ^ 18 + 5 * 10 ^ 8, 1⟩

/-!  Helper lemmas. -/

theorem ok_bind {a b : Type} (x : a) (f : a → Except ContractError b) :
    (Except.ok x : Except ContractError a) >>= f = f x := rfl

theorem error_bind {a b : Type} (e : ContractError)
    (f : a → Except ContractError b) :
    (Except.error e : Except ContractError a) >>= f = Except.error e := rfl

namespace FPDecimal

/-- Closed form of `_mul` when no step overflows: the four cross terms,
with the fraction-fraction term truncated at `MUL_PRECISION`. -/
theorem mul_closed (x y : FPDecimal)
    (h : x.num / ONE.num * (y.num / ONE.num) * ONE.num
        + x.num % ONE.num * (y.num / ONE.num)
        + x.num / ONE.num * (y.num % ONE.num)
        + x.num % ONE.num / MUL_PRECISION.num * (y.num % ONE.num / MUL_PRECISION.num)
        < U256BOUND) :
    _mul x y = some ⟨x.num / ONE.num * (y.num / ONE.num) * ONE.num
        + x.num % ONE.num * (y.num / ONE.num)
        + x.num / ONE.num * (y.num % ONE.num)
        + x.num % ONE.num / MUL_PRECISION.num * (y.num % ONE.num / MUL_PRECISION.num),
        if x.sign ≠ y.sign then 0 else 1⟩ := by
  have hE : (0:Nat) < ONE.num := by decide
  unfold _mul _int _fraction
  simp only [Nat.mul_div_cancel _ hE]
  set a1 := x.num / ONE.num with ha1
  set a2 := x.num % ONE.num with ha2
  set b1 := y.num / ONE.num with hb1
  set b2 := y.num % ONE.num with hb2
  have hle : a1 * b1 ≤ a1 * b1 * ONE.num := Nat.le_mul_of_pos_right _ hE
  have h1 : a1 * b1 < U256BOUND := by omega
  have h2 : a1 * b1 * ONE.num < U256BOUND := by omega
  have h3 : a2 * b1 < U256BOUND := by omega
  have h4 : a1 * b2 < U256BOUND := by omega
  have h5 : a2 / MUL_PRECISION.num * (b2 / MUL_PRECISION.num) < U256BOUND := by omega
  have h6 : a1 * b1 * ONE.num + a2 * b1 < U256BOUND := by omega
  have h7 : a1 * b1 * ONE.num + a2 * b1 + a1 * b2 < U256BOUND := by omega
  simp only [cmul, cadd, if_pos h1, if_pos h2, if_pos h3, if_pos h4, if_pos h5,
    if_pos h6, if_pos h7, if_pos h, Option.bind_eq_bind, Option.some_bind]
  rfl

/-- Evaluation form of `mul_closed` with the magnitude and sign abstracted. -/
theorem mul_eval (x y : FPDecimal) (s : Nat) (sg : Int)
    (hs : x.num / ONE.num * (y.num / ONE.num) * ONE.num
        + x.num % ONE.num * (y.num / ONE.num)
        + x.num / ONE.num * (y.num % ONE.num)
        + x.num % ONE.num / MUL_PRECISION.num * (y.num % ONE.num / MUL_PRECISION.num)
        = s)
    (hsg : (if x.sign ≠ y.sign then (0:Int) else 1) = sg)
    (h : s < U256BOUND) :
    _mul x y = some ⟨s, sg⟩ := by
  subst hs; subst hsg; exact mul_closed x y h

/-- Multiplying a non-negative value by a whole-number FixedPoint
`I * ONE` is exact: the magnitude is just `n * I`. -/
theorem mul_int_right (n I : Nat) (h : n * I < U256BOUND) :
    _mul ⟨n, 1⟩ ⟨I * ONE.num, 1⟩ = some ⟨n * I, 1⟩ := by
  have hE : (0:Nat) < ONE.num := by decide
  refine mul_eval _ _ _ 1 ?_ rfl h
  show n / ONE.num * (I * ONE.num / ONE.num) * ONE.num
      + n % ONE.num * (I * ONE.num / ONE.num)
      + n / ONE.num * (I * ONE.num % ONE.num)
      + n % ONE.num / MUL_PRECISION.num * (I * ONE.num % ONE.num / MUL_PRECISION.num)
      = n * I
  rw [Nat.mul_div_cancel I hE, Nat.mul_mod_left I]
  simp only [Nat.zero_div, Nat.mul_zero, Nat.add_zero]
  have hdm : ONE.num * (n / ONE.num) + n % ONE.num = n := Nat.div_add_mod n ONE.num
  calc n / ONE.num * I * ONE.num + n % ONE.num * I
      = (ONE.num * (n / ONE.num) + n % ONE.num) * I := by ring
    _ = n * I := by rw [hdm]

/-- Multiplying a whole-number FixedPoint `B * ONE` by a purely fractional
value (magnitude below `ONE`) is exact: the magnitude is `B * q`. -/
theorem mul_int_left (B q : Nat) (hq : q < ONE.num) (h : B * q < U256BOUND) :
    _mul ⟨B * ONE.num, 1⟩ ⟨q, 1⟩ = some ⟨B * q, 1⟩ := by
  have hE : (0:Nat) < ONE.num := by decide
  refine mul_eval _ _ _ 1 ?_ rfl h
  show B * ONE.num / ONE.num * (q / ONE.num) * ONE.num
      + B * ONE.num % ONE.num * (q / ONE.num)
      + B * ONE.num / ONE.num * (q % ONE.num)
      + B * ONE.num % ONE.num / MUL_PRECISION.num * (q % ONE.num / MUL_PRECISION.num)
      = B * q
  rw [Nat.mul_div_cancel B hE, Nat.mul_mod_left B, Nat.div_eq_of_lt hq,
    Nat.mod_eq_of_lt hq]
  simp only [Nat.zero_div, Nat.mul_zero, Nat.zero_mul, Nat.add_zero, Nat.zero_add]

/-- `int_to_fpdec B / int_to_fpdec S` computes `B * (ONE / S)` exactly:
the reciprocal of `S` is the truncated magnitude `ONE / S`, and the
multiplication by the whole number `B` is exact. -/
theorem div_int_int (B S : Nat) (hS : 0 < S) (h : B * (ONE.num / S) < U256BOUND) :
    _div (int_to_fpdec B) (int_to_fpdec S) = some ⟨B * (ONE.num / S), 1⟩ := by
  have hE : (0:Nat) < ONE.num := by decide
  rcases Nat.lt_or_ge S 2 with h1 | h2
  · have hone : S = 1 := by omega
    subst hone
    have heq : int_to_fpdec 1 = ONE := by decide
    rw [_div, if_pos heq]
    simp [int_to_fpdec, ONE]
  · have hne : int_to_fpdec S ≠ ONE := by
      intro hc
      have : S * ONE.num = ONE.num := congrArg FPDecimal.num hc
      nlinarith
    have hnz : ¬ (int_to_fpdec S).num = 0 := by
      simp only [int_to_fpdec]
      positivity
    rw [_div, if_neg hne, if_neg hnz]
    rw [reciprocal, if_neg hnz]
    simp only [int_to_fpdec, Option.some_bind]
    rw [Nat.mul_div_mul_right ONE.num S hE]
    exact mul_int_left B (ONE.num / S) (Nat.div_lt_self hE h2) h

/-- `_add` preserves the canonical-zero invariant; only the canonicity of
the left operand matters, because a zero result in the mixed-sign branches
gets sign 1 explicitly. -/
theorem add_canon (x y : FPDecimal) (hx : canonicalZero x) :
    ∀ z, _add x y = some z → canonicalZero z := by
  intro z hz
  unfold _add cadd at hz
  split_ifs at hz with h1 h2 h3 h4
  · obtain rfl := Option.some.inj hz
    intro h0
    dsimp only at h0
    exact hx (by omega)
  · exact Option.noConfusion hz
  · obtain rfl := Option.some.inj hz
    intro h0
    dsimp only at h0
    exact absurd h0 (by omega)
  · obtain rfl := Option.some.inj hz
    intro h0
    dsimp only
  · obtain rfl := Option.some.inj hz
    intro h0
    dsimp only at h0
    exact absurd h0 (by omega)

/-- The first `k` little-endian bytes of `n` are `n` modulo `2 ^ (8 k)`. -/
theorem leBytesAcc_eq (n k : Nat) : leBytesAcc n k = n % 2 ^ (8 * k) := by
  induction k with
  | zero => simp [leBytesAcc, Nat.mod_one]
  | succ k ih =>
      rw [leBytesAcc, ih]
      have h : (2:Nat) ^ (8 * (k + 1)) = 2 ^ (8 * k) * 2 ^ 8 := by
        rw [Nat.mul_succ, pow_add]
      rw [h, Nat.mod_mul]
      ring

/-- `x * one` returns `x` exactly for any sign bit in range. -/
theorem mul_one_exact (x : FPDecimal) (hb : x.num < U256BOUND)
    (hs : x.sign = 0 ∨ x.sign = 1) : _mul x one = some x := by
  have hE : (0:Nat) < ONE.num := by decide
  have hx : x = ⟨x.num, x.sign⟩ := rfl
  rw [hx]
  refine mul_eval _ _ x.num x.sign ?_ ?_ hb
  · show x.num / ONE.num * (ONE.num / ONE.num) * ONE.num
        + x.num % ONE.num * (ONE.num / ONE.num)
        + x.num / ONE.num * (ONE.num % ONE.num)
        + x.num % ONE.num / MUL_PRECISION.num * (ONE.num % ONE.num / MUL_PRECISION.num)
        = x.num
    rw [Nat.div_self hE, Nat.mod_self]
    have hdm : ONE.num * (x.num / ONE.num) + x.num % ONE.num = x.num :=
      Nat.div_add_mod x.num ONE.num
    calc x.num / ONE.num * 1 * ONE.num + x.num % ONE.num * 1 + x.num / ONE.num * 0
          + x.num % ONE.num / MUL_PRECISION.num * (0 / MUL_PRECISION.num)
        = ONE.num * (x.num / ONE.num) + x.num % ONE.num := by
          rw [Nat.zero_div]
          ring
      _ = x.num := hdm
  · rcases hs with h | h <;> rw [h] <;> rfl

/-- `x / x` recovers the canonical one when the magnitude of `x` is a
whole multiple `k * ONE` with `k` dividing the scale, so that both the
reciprocal and the multiplication are exact. -/
theorem div_self_exact (x : FPDecimal) (k : Nat) (hk : 0 < k)
    (hdvd : k ∣ ONE.num) (hx : x.num = k * ONE.num) :
    _div x x = some one := by
  have hE : (0:Nat) < ONE.num := by decide
  by_cases hone : x = ONE
  · rw [_div, if_pos hone, hone]
    rfl
  · have hnz : ¬ x.num = 0 := by
      rw [hx]
      positivity
    rw [_div, if_neg hone, if_neg hnz, reciprocal, if_neg hnz, hx,
      Nat.mul_div_mul_right ONE.num k hE]
    show _mul x ⟨ONE.num / k, x.sign⟩ = some one
    rcases Nat.lt_or_ge k 2 with h1 | h2
    · have hk1 : k = 1 := by omega
      subst hk1
      rw [Nat.div_one]
      refine mul_eval _ _ ONE.num 1 ?_ (by simp) (by decide)
      rw [hx]
      show ONE.num / ONE.num * (ONE.num / ONE.num) * ONE.num
          + ONE.num % ONE.num * (ONE.num / ONE.num)
          + ONE.num / ONE.num * (ONE.num % ONE.num)
          + ONE.num % ONE.num / MUL_PRECISION.num
            * (ONE.num % ONE.num / MUL_PRECISION.num)
          = ONE.num
      rw [Nat.div_self hE, Nat.mod_self]
      simp
    · have hqlt : ONE.num / k < ONE.num := Nat.div_lt_self hE h2
      refine mul_eval _ _ ONE.num 1 ?_ (by simp) (by decide)
      rw [hx]
      show k * ONE.num / ONE.num * (ONE.num / k / ONE.num) * ONE.num
          + k * ONE.num % ONE.num * (ONE.num / k / ONE.num)
          + k * ONE.num / ONE.num * (ONE.num / k % ONE.num)
          + k * ONE.num % ONE.num / MUL_PRECISION.num
            * (ONE.num / k % ONE.num / MUL_PRECISION.num)
          = ONE.num
      rw [Nat.mul_div_cancel k hE, Nat.mul_mod_left k,
        Nat.div_eq_of_lt hqlt, Nat.mod_eq_of_lt hqlt]
      simp only [Nat.zero_div, Nat.mul_zero, Nat.zero_mul, Nat.add_zero,
        Nat.zero_add]
      exact Nat.mul_div_cancel' hdvd

end FPDecimal

open FPDecimal in
/-- Mapping `_mul ⟨m, 1⟩` over whole-number FixedPoints is exact. -/
theorem mapM_mul_int (m : Nat) (balances : List Nat)
    (hb : ∀ I ∈ balances, m * I < U256BOUND) :
    (balances.map int_to_fpdec).mapM (FPDecimal._mul ⟨m, 1⟩)
      = some (balances.map (fun I => (⟨m * I, 1⟩ : FPDecimal))) := by
  induction balances with
  | nil => rfl
  | cons I rest ih =>
      simp only [List.map_cons, List.mapM_cons, int_to_fpdec]
      rw [mul_int_right m I (hb I (by simp))]
      rw [show (rest.map int_to_fpdec).mapM (FPDecimal._mul ⟨m, 1⟩)
            = some (rest.map (fun I => (⟨m * I, 1⟩ : FPDecimal)))
          from ih (fun I hI => hb I (by simp [hI]))]
      rfl

/-- Truncating `B * (ONE / S) * I` by `ONE` is exact pro-rata when `S`
divides the scale. -/
theorem q_floor (B S I : Nat) (hS : 0 < S) (hdvd : S ∣ FPDecimal.ONE.num) :
    B * (FPDecimal.ONE.num / S) * I / FPDecimal.ONE.num = B * I / S := by
  have hSq : S * (FPDecimal.ONE.num / S) = FPDecimal.ONE.num :=
    Nat.mul_div_cancel' hdvd
  have hqpos : 0 < FPDecimal.ONE.num / S :=
    Nat.div_pos (Nat.le_of_dvd (by decide) hdvd) hS
  calc B * (FPDecimal.ONE.num / S) * I / FPDecimal.ONE.num
      = B * I * (FPDecimal.ONE.num / S) / (S * (FPDecimal.ONE.num / S)) := by
        rw [hSq]; ring_nf
    _ = B * I / S := Nat.mul_div_mul_right _ _ hqpos

/-- The unweighted redemption vector in closed form. -/
theorem redeemUnweighted_closed (B S : Nat) (balances : List Nat)
    (hS : 0 < S) (hdvd : S ∣ FPDecimal.ONE.num)
    (hb : ∀ I ∈ balances, B * (FPDecimal.ONE.num / S) * I < U256BOUND) :
    redeemUnweighted ⟨B * (FPDecimal.ONE.num / S), 1⟩ (balances.map int_to_fpdec)
      = some (balances.map (fun I => B * I / S)) := by
  unfold redeemUnweighted
  rw [mapM_mul_int _ _ hb]
  show some (((balances.map
      (fun I => (⟨B * (FPDecimal.ONE.num / S) * I, 1⟩ : FPDecimal))).map
      (fun x => (fpdec_to_int x).1)))
    = some (balances.map (fun I => B * I / S))
  rw [List.map_map]
  have hfun : ((fun x => (fpdec_to_int x).1) ∘ fun I =>
      (⟨B * (FPDecimal.ONE.num / S) * I, 1⟩ : FPDecimal))
      = fun I => B * I / S := by
    funext I
    simp only [Function.comp, fpdec_to_int]
    exact q_floor B S I hS hdvd
  rw [hfun]

/-- The burn-to-supply ratio magnitude never overflows for u128 inputs. -/
theorem mdivn_lt (B S : Nat) (hB : B < 2 ^ 128) :
    B * (FPDecimal.ONE.num / S) < U256BOUND := by
  have h1 : FPDecimal.ONE.num / S ≤ FPDecimal.ONE.num := Nat.div_le_self _ _
  have h2 : B * (FPDecimal.ONE.num / S) ≤ B * FPDecimal.ONE.num :=
    Nat.mul_le_mul_left B h1
  have h3 : B * FPDecimal.ONE.num < 2 ^ 128 * FPDecimal.ONE.num :=
    Nat.mul_lt_mul_of_lt_of_le hB (Nat.le_refl _) (by decide)
  have h4 : 2 ^ 128 * FPDecimal.ONE.num < U256BOUND := by decide
  omega

/-- A weighted burn whose weight vector has the wrong length is rejected
with the dimension-mismatch error carrying both lengths. -/
theorem burn_dim_mismatch (B S : Nat) (balances weights : List Nat)
    (prices : List FPDecimal) (target : List Nat) (pf : PenaltyFn)
    (hS : 0 < S) (hB : B < 2 ^ 128)
    (hlen : weights.length ≠ balances.length) :
    tryReceiveBurn B balances S (some weights) prices target pf
      = .error (.badWeightDimensions weights.length balances.length) := by
  simp only [tryReceiveBurn, FPDecimal.div_int_int B S hS (mdivn_lt B S hB),
    fatal, ok_bind, List.length_map]
  rw [if_pos hlen]
  rfl

/-- The staging loop only ever raises `insufficientStaged`. -/
theorem unstage_no_dim (staged amounts : List Nat) (p e : Nat) :
    unstageLoop staged amounts ≠ .error (.badWeightDimensions p e) := by
  induction amounts generalizing staged with
  | nil =>
      cases staged <;> simp [unstageLoop]
  | cons a as ih =>
      cases staged with
      | nil => simp [unstageLoop]
      | cons s ss =>
          unfold unstageLoop
          split_ifs with h
          · simp
          · intro hc
            cases hr : unstageLoop ss as with
            | error x =>
                rw [hr] at hc
                simp only [Except.map] at hc
                obtain rfl := (Except.error.inj hc)
                exact ih ss (by rw [hr])
            | ok v =>
                rw [hr] at hc
                simp [Except.map] at hc

/-- `try_mint` contains no dimension check at all: no run can produce a
dimension-mismatch error. -/
theorem mint_never_dim (staged amounts balances : List Nat)
    (prices : List FPDecimal) (target : List Nat) (S : Nat)
    (mt : Option Nat) (pf : PenaltyFn) (p e : Nat) :
    tryMint staged amounts balances prices target S mt pf
      ≠ .error (.badWeightDimensions p e) := by
  unfold tryMint
  cases hr : unstageLoop staged amounts with
  | error x =>
      simp only [hr, error_bind]
      intro hc
      obtain rfl := Except.error.inj hc
      exact unstage_no_dim staged amounts p e hr
  | ok staged2 =>
      simp only [hr, ok_bind]
      cases hp : pf (balances.map int_to_fpdec) (amounts.map int_to_fpdec)
          prices target with
      | none => simp [fatal, error_bind]
      | some penalty =>
          simp only [fatal, ok_bind]
          cases hm : mintSubtotal penalty (amounts.map int_to_fpdec) prices
              (balances.map int_to_fpdec) S with
          | none => simp [error_bind]
          | some sub =>
              simp only [ok_bind]
              cases mt with
              | none => exact fun hc => Except.noConfusion hc
              | some m =>
                  dsimp only
                  split_ifs with h
                  · exact fun hc => ContractError.noConfusion (Except.error.inj hc)
                  · exact fun hc => Except.noConfusion hc

/-!  Claim theorems. -/

open FPDecimal in
/-- C1 (amended): for inputs satisfying the canonical-zero invariant
(`num = 0` implies `sign = 1`), `_add` and `_sub` preserve the invariant:
whenever they return a value, a zero magnitude carries the non-negative
sign.  (The original claim also asserted this for `_mul`, `_div` and
`reciprocal`; those can return a negative zero, see the counterexample.) -/
theorem C1_add_sub_preserve_canonical_zero (x y za zs : FPDecimal)
    (hx : canonicalZero x) (hy : canonicalZero y)
    (ha : _add x y = some za) (hs : _sub x y = some zs) :
    canonicalZero za ∧ canonicalZero zs :=
  ⟨add_canon x y hx za ha, add_canon x ⟨y.num, 1 - y.sign⟩ hx zs hs⟩

open FPDecimal in
theorem C1_add_sub_preserve_canonical_zero_witness :
    canonicalZero ⟨2 * ONE.num, 1⟩ ∧ canonicalZero ⟨8 * ONE.num, 1⟩ :=
  C1_add_sub_preserve_canonical_zero ⟨5 * ONE.num, 1⟩ ⟨3 * ONE.num, 0⟩
    ⟨2 * ONE.num, 1⟩ ⟨8 * ONE.num, 1⟩ (by decide) (by decide) (by decide)
    (by decide)

open FPDecimal in
/-- C1 counterexample: multiplying the canonical zero by a negative value
yields a zero with the negative sign, violating the invariant; `_div` and
`reciprocal` can do the same. -/
theorem C1_mul_negative_zero :
    canonicalZero ⟨0, 1⟩ ∧ canonicalZero ⟨ONE.num, 0⟩ ∧
    _mul ⟨0, 1⟩ ⟨ONE.num, 0⟩ = some ⟨0, 0⟩ ∧
    ¬ canonicalZero ⟨0, 0⟩ ∧
    _div ⟨0, 1⟩ ⟨2 * ONE.num, 0⟩ = some ⟨0, 0⟩ ∧
    reciprocal ⟨2 * ONE.num * ONE.num, 0⟩ = some ⟨0, 0⟩ :=
  ⟨by decide, by decide, by decide, by decide, by decide, by decide⟩

/-- C2 (amended): the unweighted burn is exactly pro-rata,
`redeem[i] = floor(B * Inv[i] / S)`, whenever the token supply `S` divides
the scale constant `ONE = 10^18` (in particular for every power of ten);
for general `S` the computed ratio is the truncated `B * floor(ONE / S)`
and the result can fall below the exact pro-rata floor, see the
counterexample. -/
theorem C2_unweighted_burn_pro_rata (B S : Nat) (balances : List Nat)
    (prices : List FPDecimal) (target : List Nat) (pf : PenaltyFn)
    (hS : 0 < S) (hdvd : S ∣ FPDecimal.ONE.num) (hB : B < 2 ^ 128)
    (hb : ∀ I ∈ balances, B * (FPDecimal.ONE.num / S) * I < U256BOUND) :
    tryReceiveBurn B balances S none prices target pf
      = .ok (balances.map (fun I => B * I / S)) := by
  simp only [tryReceiveBurn,
    FPDecimal.div_int_int B S hS (mdivn_lt B S hB), fatal, ok_bind,
    redeemUnweighted_closed B S balances hS hdvd hb]
  rfl

theorem C2_unweighted_burn_pro_rata_witness :
    tryReceiveBurn 3 [5] 4 none [] [] constPenaltyOne = .ok [3] :=
  C2_unweighted_burn_pro_rata 3 4 [5] [] [] constPenaltyOne (by decide)
    (by decide) (by decide) (by decide)

/-- C2 counterexample: burning 1 of a supply of 3 against an inventory of 3
redeems 0, while the exact rational pro-rata amount floor((1/3)*3) is 1:
the code divides through the truncated fixed-point reciprocal, not with
exact rational arithmetic. -/
theorem C2_unweighted_burn_not_exact :
    tryReceiveBurn 1 [3] 3 none [] [] constPenaltyOne = .ok [0]
    ∧ ⌊(1 / 3 : ℚ) * 3⌋ = 1 := by
  constructor
  · rfl
  · have h : (1 / 3 : ℚ) * 3 = 1 := by norm_num
    rw [h]
    exact Int.floor_one

open FPDecimal in
/-- C3 (amended): `x * one = x` holds for every in-range value; `x / x` is
the canonical one for `x = one` and whenever the magnitude of `x` is a
whole multiple `k * ONE` with `k` dividing the scale.  For general nonzero
`x` the quotient `x / x` can fall one ULP short of one (see the
counterexample with x = 3). -/
theorem C3_mul_one_and_div_self :
    (∀ x : FPDecimal, x.num < U256BOUND → x.sign = 0 ∨ x.sign = 1 →
      _mul x one = some x) ∧
    (∀ (x : FPDecimal) (k : Nat), 0 < k → k ∣ ONE.num →
      x.num = k * ONE.num → _div x x = some one) :=
  ⟨fun x hb hs => mul_one_exact x hb hs,
   fun x k hk hdvd hx => div_self_exact x k hk hdvd hx⟩

open FPDecimal in
theorem C3_mul_one_and_div_self_witness :
    _mul ⟨7, 1⟩ one = some ⟨7, 1⟩
    ∧ _div ⟨5 * ONE.num, 1⟩ ⟨5 * ONE.num, 1⟩ = some one :=
  ⟨C3_mul_one_and_div_self.1 ⟨7, 1⟩ (by decide) (Or.inr rfl),
   C3_mul_one_and_div_self.2 ⟨5 * ONE.num, 1⟩ 5 (by decide) (by decide) rfl⟩

open FPDecimal in
/-- C3 counterexample: for x = 3 (magnitude `3 * ONE`, nonzero), `x / x`
is 0.999999999999999999, not the canonical one. -/
theorem C3_div_self_below_one :
    _div ⟨3 * ONE.num, 1⟩ ⟨3 * ONE.num, 1⟩ = some ⟨999999999999999999, 1⟩
    ∧ (⟨999999999999999999, 1⟩ : FPDecimal) ≠ one
    ∧ (⟨3 * ONE.num, 1⟩ : FPDecimal).num ≠ 0 := ⟨rfl, by decide, by decide⟩

/-- C4: a weighted burn whose weight vector sums to zero aborts fatally:
normalizing the weights divides by the zero sum, and the zero-magnitude
assert in `_div`/`reciprocal` is a panic, not a recoverable error, for any
prices, target and penalty computation.  The spec (§8, §7) requires a
recoverable typed error here, so this is a bug in the code. -/
theorem C4_zero_weight_sum_panics (prices : List FPDecimal)
    (target : List Nat) (pf : PenaltyFn) :
    tryReceiveBurn 100 [1000000, 2000000] 1000 (some [0, 0]) prices target pf
      = .error .panic := rfl

/-- C5 (amended): on a successful mint the returned token amount is the
truncation toward zero of the fixed-point subtotal the code computes,
namely `((penalty * dot(c, prices)) / dot(inv, prices)) * supply` evaluated
left to right, and the amount and remainder together carry the full raw
value (`total * ONE + remainder = subtotal`, `remainder < ONE`), the
remainder staying inside the basket.  (The original claim grouped the
expression as `penalty * (cv / iv) * supply`, which differs in sub-ULP
digits and can change the truncated amount, see the counterexample.) -/
theorem C5_mint_truncation_and_remainder (staged amounts balances : List Nat)
    (prices : List FPDecimal) (target : List Nat) (S : Nat) (pf : PenaltyFn)
    (staged2 : List Nat) (penalty sub : FPDecimal)
    (h1 : unstageLoop staged amounts = .ok staged2)
    (h2 : pf (balances.map int_to_fpdec) (amounts.map int_to_fpdec) prices
        target = some penalty)
    (h3 : mintSubtotal penalty (amounts.map int_to_fpdec) prices
        (balances.map int_to_fpdec) S = some sub) :
    tryMint staged amounts balances prices target S none pf
      = .ok (staged2, sub.num / FPDecimal.ONE.num,
          ⟨sub.num % FPDecimal.ONE.num, sub.sign⟩)
    ∧ sub.num / FPDecimal.ONE.num * FPDecimal.ONE.num
        + sub.num % FPDecimal.ONE.num = sub.num
    ∧ sub.num % FPDecimal.ONE.num < FPDecimal.ONE.num := by
  refine ⟨?_, Nat.div_add_mod' sub.num FPDecimal.ONE.num,
    Nat.mod_lt _ (by decide)⟩
  simp only [tryMint, h1, ok_bind, h2, h3, fatal, fpdec_to_int]
  rfl

theorem C5_mint_truncation_and_remainder_witness :
    tryMint [1] [1] [2] [⟨10 ^ 18, 1⟩] [1] 1 none constPenaltyOne
      = .ok ([0], 0, ⟨5 * 10 ^ 17, 1⟩)
    ∧ (0 : Nat) * FPDecimal.ONE.num + 5 * 10 ^ 17 = 5 * 10 ^ 17
    ∧ (5 * 10 ^ 17 : Nat) < FPDecimal.ONE.num :=
  C5_mint_truncation_and_remainder [1] [1] [2] [⟨10 ^ 18, 1⟩] [1] 1
    constPenaltyOne [0] FPDecimal.one ⟨5 * 10 ^ 17, 1⟩ rfl rfl (by rfl)

/-- C5 counterexample: with penalty 1 + 5e-10, contribution value
1 + 5e-10, inventory value 3 and supply 3, the code mints 1 token
(subtotal 1.000000000999999998), while the grouping in the claim,
`penalty * (cv / iv) * supply`, yields subtotal 0.999999999999999999 and
would mint 0. -/
theorem C5_spec_grouping_differs :
    tryMint [1, 0] [1, 0] [0, 3] [⟨10 ^ 18 + 5 * 10 ^ 8, 1⟩, ⟨10 ^ 18, 1⟩]
        [1, 1] 3 none constPenaltyNearOne
      = .ok ([0, 0], 1, ⟨999999998, 1⟩)
    ∧ mintSubtotalSpec ⟨10 ^ 18 + 5 * 10 ^ 8, 1⟩ ([1, 0].map int_to_fpdec)
        [⟨10 ^ 18 + 5 * 10 ^ 8, 1⟩, ⟨10 ^ 18, 1⟩] ([0, 3].map int_to_fpdec) 3
      = some ⟨999999999999999999, 1⟩
    ∧ (fpdec_to_int ⟨999999999999999999, 1⟩).1 = 0
    ∧ (fpdec_to_int ⟨1000000000999999998, 1⟩).1 = 1 :=
  ⟨rfl, rfl, rfl, rfl⟩

/-- C6: when a minimum is supplied and the truncated mint amount falls
below it, `try_mint` returns the recoverable `belowMinTokens` error carrying
the computed amount and the minimum, and under the commit-on-success
semantics of the surrounding system (spec §7) the staged balances of the
caller are unchanged by the failed call. -/
theorem C6_below_min_no_state_change (staged amounts balances : List Nat)
    (prices : List FPDecimal) (target : List Nat) (S min : Nat)
    (pf : PenaltyFn) (staged2 : List Nat) (penalty sub : FPDecimal)
    (h1 : unstageLoop staged amounts = .ok staged2)
    (h2 : pf (balances.map int_to_fpdec) (amounts.map int_to_fpdec) prices
        target = some penalty)
    (h3 : mintSubtotal penalty (amounts.map int_to_fpdec) prices
        (balances.map int_to_fpdec) S = some sub)
    (hmin : sub.num / FPDecimal.ONE.num < min) :
    tryMint staged amounts balances prices target S (some min) pf
      = .error (.belowMinTokens (sub.num / FPDecimal.ONE.num) min)
    ∧ commitStaged staged
        (tryMint staged amounts balances prices target S (some min) pf)
      = staged := by
  have hres : tryMint staged amounts balances prices target S (some min) pf
      = .error (.belowMinTokens (sub.num / FPDecimal.ONE.num) min) := by
    simp only [tryMint, h1, ok_bind, h2, h3, fatal, fpdec_to_int]
    rw [if_pos hmin]
    rfl
  exact ⟨hres, by rw [hres]; rfl⟩

theorem C6_below_min_no_state_change_witness :
    tryMint [1] [1] [2] [⟨10 ^ 18, 1⟩] [1] 1 (some 1) constPenaltyOne
      = .error (.belowMinTokens 0 1)
    ∧ commitStaged [1]
        (tryMint [1] [1] [2] [⟨10 ^ 18, 1⟩] [1] 1 (some 1) constPenaltyOne)
      = [1] :=
  C6_below_min_no_state_change [1] [1] [2] [⟨10 ^ 18, 1⟩] [1] 1 1
    constPenaltyOne [0] FPDecimal.one ⟨5 * 10 ^ 17, 1⟩ rfl rfl (by rfl)
    (by decide)

/-- C7 (amended): the weighted burn and the target reset reject a vector
of the wrong length with the dimension-mismatch error reporting the
provided and expected lengths; `try_mint`, however, performs no dimension
check at all (the zip with the asset list silently truncates), so no mint
call can produce a dimension-mismatch error. -/
theorem C7_dimension_checks :
    (∀ (B S : Nat) (balances weights : List Nat) (prices : List FPDecimal)
        (target : List Nat) (pf : PenaltyFn), 0 < S → B < 2 ^ 128 →
        weights.length ≠ balances.length →
        tryReceiveBurn B balances S (some weights) prices target pf
          = .error (.badWeightDimensions weights.length balances.length)) ∧
    (∀ (n : Nat) (target : List Nat), target.length ≠ n →
        tryResetTarget n target
          = .error (.badWeightDimensions target.length n)) ∧
    (∀ (staged amounts balances : List Nat) (prices : List FPDecimal)
        (target : List Nat) (S : Nat) (mt : Option Nat) (pf : PenaltyFn)
        (p e : Nat),
        tryMint staged amounts balances prices target S mt pf
          ≠ .error (.badWeightDimensions p e)) := by
  refine ⟨fun B S balances weights prices target pf hS hB hlen =>
      burn_dim_mismatch B S balances weights prices target pf hS hB hlen,
    fun n target h => ?_,
    fun staged amounts balances prices target S mt pf p e =>
      mint_never_dim staged amounts balances prices target S mt pf p e⟩
  rw [tryResetTarget, if_pos h]

theorem C7_dimension_checks_witness :
    tryReceiveBurn 10 [1, 2] 100 (some [1]) [] [] constPenaltyOne
      = .error (.badWeightDimensions 1 2)
    ∧ tryResetTarget 2 [1] = .error (.badWeightDimensions 1 2) :=
  ⟨C7_dimension_checks.1 10 100 [1, 2] [1] [] [] constPenaltyOne (by decide)
      (by decide) (by decide),
   C7_dimension_checks.2.1 2 [1] (by decide)⟩

/-- C7 counterexample: a mint whose `asset_amounts` has length 0 against a
single configured asset is not rejected with a dimension-mismatch error;
it goes through and returns a zero mint. -/
theorem C7_mint_lacks_dimension_check :
    tryMint [0] [] [2] [⟨10 ^ 18, 1⟩] [1] 1 none constPenaltyOne
      = .ok ([0], 0, ⟨0, 1⟩)
    ∧ ([] : List Nat).length ≠ [(2 : Nat)].length := ⟨rfl, by decide⟩

open FPDecimal in
/-- C8: `_add` implements sign-magnitude addition exactly as specified:
same signs add magnitudes and keep the sign (when the U256 sum does not
overflow); different signs subtract the smaller magnitude from the larger
and keep the sign of the larger operand; equal magnitudes with different
signs give the canonical non-negative zero. -/
theorem C8_add_sign_magnitude (x y : FPDecimal) :
    (x.sign = y.sign → x.num + y.num < U256BOUND →
      _add x y = some ⟨x.num + y.num, x.sign⟩) ∧
    (x.sign ≠ y.sign → y.num < x.num →
      _add x y = some ⟨x.num - y.num, x.sign⟩) ∧
    (x.sign ≠ y.sign → x.num < y.num →
      _add x y = some ⟨y.num - x.num, y.sign⟩) ∧
    (x.sign ≠ y.sign → x.num = y.num →
      _add x y = some ⟨0, 1⟩) := by
  refine ⟨fun hs hb => ?_, fun hs hlt => ?_, fun hs hlt => ?_,
    fun hs heq => ?_⟩
  · unfold _add cadd
    rw [if_pos hs, if_pos hb]
    rfl
  · unfold _add
    rw [if_neg hs, if_pos hlt]
  · unfold _add
    rw [if_neg hs, if_neg (by omega)]
    have h : ¬ y.num = x.num := by omega
    rw [if_neg h]
  · unfold _add
    rw [if_neg hs, if_neg (by omega), if_pos heq.symm]
    rw [heq]
    simp

open FPDecimal in
theorem C8_add_sign_magnitude_witness :
    _add ⟨5, 1⟩ ⟨3, 1⟩ = some ⟨8, 1⟩
    ∧ _add ⟨5, 1⟩ ⟨3, 0⟩ = some ⟨2, 1⟩
    ∧ _add ⟨3, 1⟩ ⟨5, 0⟩ = some ⟨2, 0⟩
    ∧ _add ⟨3, 1⟩ ⟨3, 0⟩ = some ⟨0, 1⟩ :=
  ⟨(C8_add_sign_magnitude ⟨5, 1⟩ ⟨3, 1⟩).1 rfl (by decide),
   (C8_add_sign_magnitude ⟨5, 1⟩ ⟨3, 0⟩).2.1 (by decide) (by decide),
   (C8_add_sign_magnitude ⟨3, 1⟩ ⟨5, 0⟩).2.2.1 (by decide) (by decide),
   (C8_add_sign_magnitude ⟨3, 1⟩ ⟨3, 0⟩).2.2.2 (by decide) rfl⟩

open FPDecimal in
/-- C9: division by a zero-magnitude value and the reciprocal of a
zero-magnitude value are fatal (panics), never recoverable returns, and
dividing by the canonical one returns the dividend unchanged through the
fast path, never reaching the zero check. -/
theorem C9_div_zero_fatal_one_fast_path (x y : FPDecimal) (h : y.num = 0) :
    _div x y = none ∧ reciprocal y = none ∧ _div x ONE = some x := by
  have hne : y ≠ ONE := by
    intro hc
    rw [hc] at h
    exact absurd h (by decide)
  refine ⟨?_, ?_, ?_⟩
  · unfold _div
    rw [if_neg hne, if_pos h]
  · unfold reciprocal
    rw [if_pos h]
  · unfold _div
    rw [if_pos rfl]

open FPDecimal in
theorem C9_div_zero_fatal_one_fast_path_witness :
    _div ⟨5 * ONE.num, 1⟩ ⟨0, 1⟩ = none
    ∧ reciprocal ⟨0, 1⟩ = none
    ∧ _div ⟨5 * ONE.num, 1⟩ ONE = some ⟨5 * ONE.num, 1⟩ :=
  C9_div_zero_fatal_one_fast_path ⟨5 * ONE.num, 1⟩ ⟨0, 1⟩ rfl

open FPDecimal in
/-- C10: `convertTou128` reads only the 16 least-significant bytes, so it
returns its argument modulo `2 ^ 128`, silently discarding the bits above
the 128th rather than raising an error. -/
theorem C10_convertTou128_mod (num : Nat) :
    convertTou128 num = num % 2 ^ 128 := by
  rw [convertTou128, leBytesAcc_eq]
